import Mathlib

/-!
Shallow embedding of `src/dashboard.py` (GX Activations Dashboard).

The program keeps a flat key → value table of dashboard metrics. Values in
Python are ints, floats or strings; we model them with `PyVal` (rationals
stand in for Python floats). Python dicts are modelled as association lists
with insert-or-replace semantics (`dinsert`) and first-match lookup
(`dlookup`); a dict built this way has at most one binding per key, so
first-match lookup agrees with Python dict lookup.

Effectful pieces (the Google-Sheets fetch, Streamlit session state) are
modelled by explicit parameters: the fetch result is an
`Except String (List (List String))` (`.error` = any exception raised while
reaching or reading the sheet), and the session state is a partial map
`String → Option PyVal`.
-/

/-- A Python value as it occurs in the dashboard data dict: an int, a float
(modelled as a rational) or a string. -/
inductive PyVal where
  | pint (n : ℤ)
  | pfloat (q : ℚ)
  | pstr (s : String)
deriving DecidableEq

open PyVal

/-- First-match lookup in an association list (Python `d[k]` / `d.get(k)`). -/
def dlookup : List (String × PyVal) → String → Option PyVal
  | [], _ => none
  | kv :: t, k => if kv.1 = k then some kv.2 else dlookup t k

/-- Insert-or-replace (Python `d[k] = v`): replaces the first binding of `k`
in place, or appends a new binding. -/
def dinsert : List (String × PyVal) → String → PyVal → List (String × PyVal)
  | [], k, v => [(k, v)]
  | kv :: t, k, v => if kv.1 = k then (k, v) :: t else kv :: dinsert t k v

/-- Python `d.get(k, dflt)`. -/
def dget (d : List (String × PyVal)) (k : String) (dflt : PyVal) : PyVal :=
  match dlookup d k with
  | some v => v
  | none => dflt

/-- Python `base.copy(); base.update(upd)`: fold the updates into the base
dict, later bindings overriding earlier ones. -/
def dupdate (base upd : List (String × PyVal)) : List (String × PyVal) :=
  upd.foldl (fun acc kv => dinsert acc kv.1 kv.2) base

/-- `DEFAULT_DATA` from `dashboard.py` (lines 21–33). -/
def DEFAULT_DATA : List (String × PyVal) :=
  [("hcp_educated", pint 28), ("hcp_family", pint 19), ("hcp_internal", pint 18),
   ("hcp_general", pint 28),
   ("hcp_md_do", pint 75), ("hcp_np_pa", pint 25),
   ("confidence_diagnosing", pint 85), ("confidence_treating", pint 78),
   ("confidence_managing", pint 82),
   ("intent_to_test", pint 90),
   ("attendees_educated", pint 98),
   ("demo_black", pint 55), ("demo_hispanic", pint 25), ("demo_white", pint 17),
   ("demo_other", pint 3),
   ("age_55_plus", pint 45), ("age_35_54", pint 28), ("age_18_34", pint 27),
   ("gender_male", pint 75),
   ("aware_ldlc", pint 88), ("understand_risk", pint 84), ("intent_test", pint 91),
   ("intent_followup", pint 79),
   ("ldlc_0_54", pfloat (54/100)), ("ldlc_55_70", pfloat (70/100)),
   ("ldlc_70_99", pfloat (99/100)),
   ("ldlc_100_139", pfloat (139/100)), ("ldlc_140_189", pfloat (189/100)),
   ("ldlc_190_plus", pfloat (190/100))]

/-- Digits of a decimal string folded to a natural number
(helper for the numeric parsers). -/
def digitsVal (cs : List Char) : ℕ :=
  cs.foldl (fun n c => 10 * n + (c.toNat - 48)) 0

/-- Split a character list at every occurrence of `.`
(the list-level counterpart of splitting a string on the dot). -/
def splitOnDot : List Char → List (List Char)
  | [] => [[]]
  | c :: t =>
    if c = '.' then [] :: splitOnDot t
    else
      match splitOnDot t with
      | h :: r => (c :: h) :: r
      | [] => [[c]]

/-- Python `float(s)` restricted to the plain decimal forms
`[-]digits`, `[-]digits.digits`, `[-].digits`, `[-]digits.` that the sheet
data uses; other strings fail (`none` = `ValueError`). -/
def pyFloatOfString (s : String) : Option ℚ :=
  let neg : Bool := match s.data with | c :: _ => c = '-' | [] => false
  let body := if neg then s.data.drop 1 else s.data
  match splitOnDot body with
  | [ip] =>
    if ip ≠ [] ∧ ip.all Char.isDigit then
      some (if neg then -(digitsVal ip : ℚ) else (digitsVal ip : ℚ))
    else none
  | [ip, fp] =>
    if (ip ≠ [] ∨ fp ≠ []) ∧ ip.all Char.isDigit ∧ fp.all Char.isDigit then
      let mag : ℚ := (digitsVal ip : ℚ) + (digitsVal fp : ℚ) / 10 ^ fp.length
      some (if neg then -mag else mag)
    else none
  | _ => none

/-- Python `int(s)` (sign and digits only, as Python accepts;
`none` = `ValueError`). -/
def pyIntOfString (s : String) : Option ℤ :=
  let neg : Bool := match s.data with | c :: _ => c = '-' | [] => false
  let body := if neg then s.data.drop 1 else s.data
  if body ≠ [] ∧ body.all Char.isDigit then
    some (if neg then -(digitsVal body : ℤ) else (digitsVal body : ℤ))
  else none

/-- The per-cell value conversion of `load_data_from_sheet` (lines 118–129):
empty cell stays a string, a cell containing `.` is parsed as float, any
other cell as int, and on a parse failure the raw string is kept. -/
def parseCell (val : String) : PyVal :=
  if val.data = [] then pstr ""
  else if val.data.contains '.' then
    match pyFloatOfString val with
    | some q => pfloat q
    | none => pstr val
  else
    match pyIntOfString val with
    | some n => pint n
    | none => pstr val

/-- The row loop of `load_data_from_sheet` (lines 110–130): rows shorter than
two cells and rows with an empty key are skipped, every other row is parsed
and inserted (later rows override earlier ones). -/
def parseRows (rows : List (List String)) : List (String × PyVal) :=
  rows.foldl
    (fun acc row =>
      match row with
      | key :: val :: _ => if key = "" then acc else dinsert acc key (parseCell val)
      | _ => acc)
    []

/-- `load_data_from_sheet` (lines 95–137). The sheet fetch is a parameter:
`.error e` models any exception raised while reaching or reading the sheet
(auth failure, network failure, missing worksheet); `.ok rows` is the result
of `ws.get_all_values()`. The body mirrors the source: on error return a copy
of `DEFAULT_DATA`; with fewer than two rows return a copy of `DEFAULT_DATA`;
otherwise parse the rows after the header and overlay them on the defaults. -/
def load_data_from_sheet (fetch : Except String (List (List String))) :
    List (String × PyVal) :=
  match fetch with
  | .error _ => DEFAULT_DATA
  | .ok rows =>
    if rows.length < 2 then DEFAULT_DATA
    else dupdate DEFAULT_DATA (parseRows (rows.drop 1))

/-! ## Normalization policy

`render_demographics_section` (lines 229–232) and `render_ldlc_matrix`
(lines 308–311) both normalize a metric group in place:

    total = df[col].sum()
    if total != 100 and total > 0:
        df[col] = (df[col] / total * 100).round(d)

with `d = 1` for the demographics percentages and `d = 2` for the LDL-c
column. pandas `.round` is numpy rounding, which rounds halves to the nearest
even multiple; `rhe` is that rounding on exact rationals. -/

/-- Round a rational to the nearest integer, halves to the even neighbour
(the rounding used by pandas/numpy `.round(0)`). -/
def rhe (y : ℚ) : ℤ :=
  if y - ⌊y⌋ < 1/2 then ⌊y⌋
  else if 1/2 < y - ⌊y⌋ then ⌊y⌋ + 1
  else if ⌊y⌋ % 2 = 0 then ⌊y⌋ else ⌊y⌋ + 1

/-- pandas `.round(p)`: round to `p` decimal places, halves to even. -/
def roundTo (p : ℕ) (x : ℚ) : ℚ := (rhe (x * 10 ^ p) : ℚ) / 10 ^ p

/-- The shared normalization step of `render_demographics_section` and
`render_ldlc_matrix`: if the column total differs from 100 and is positive,
rescale every value by `100 / total` and round to `p` decimal places
(`p = 1` for demographics, `p = 2` for LDL-c); otherwise leave the values
untouched. -/
def normalizeGroup (p : ℕ) (vals : List ℚ) : List ℚ :=
  if vals.sum ≠ 100 ∧ 0 < vals.sum then
    vals.map (fun v => roundTo p (v / vals.sum * 100))
  else vals

/-! ## Session state, metric reads and the save path

Streamlit session state is modelled as a partial map `String → Option PyVal`:
`none` means the widget key is absent (no staged input). -/

/-- Python `int(float(x))`: truncation of a rational toward zero. -/
def truncToInt (q : ℚ) : ℤ := if 0 ≤ q then ⌊q⌋ else ⌈q⌉

/-- Python `int(val)` applied to a dashboard value (`none` = `TypeError` /
`ValueError`). Floats truncate toward zero; strings parse as decimal ints. -/
def pyIntOfVal : PyVal → Option ℤ
  | pint n => some n
  | pfloat q => some (truncToInt q)
  | pstr s => pyIntOfString s

/-- Python `float(val)` applied to a dashboard value (`none` = error). -/
def pyFloatOfVal : PyVal → Option ℚ
  | pint n => some (n : ℚ)
  | pfloat q => some q
  | pstr s => pyFloatOfString s

/-- The read pattern `int(float(data.get(key, 0)))` used by
`render_hcp_section` and the other section renderers (`none` = the conversion
raised, which only happens for non-numeric strings). -/
def metricInt (data : List (String × PyVal)) (key : String) : Option ℤ :=
  match pyFloatOfVal (dget data key (pint 0)) with
  | some q => some (truncToInt q)
  | none => none

/-- The read pattern `float(data.get(key, 0))` used by `render_ldlc_matrix`. -/
def metricFloat (data : List (String × PyVal)) (key : String) : Option ℚ :=
  pyFloatOfVal (dget data key (pint 0))

/-- The per-key cast of `collect_changes_into_dict` (lines 336–345): an int
slot casts the staged value with `int(...)`, a float slot with `float(...)`,
any other slot takes the staged value as is; a failed cast keeps the staged
value raw (the `except` branch). -/
def coerceLike (old val : PyVal) : PyVal :=
  match old with
  | pint _ =>
    match pyIntOfVal val with
    | some n => pint n
    | none => val
  | pfloat _ =>
    match pyFloatOfVal val with
    | some q => pfloat q
    | none => val
  | pstr _ => val

/-- The `for k in list(out.keys())` loop of `collect_changes_into_dict`
(lines 332–345): starting from a copy of the loaded dict, every key `k` with
a staged input `inp_k` in session state gets its entry overwritten with the
cast staged value. -/
def apply_staged_inputs (ss : String → Option PyVal)
    (original : List (String × PyVal)) : List (String × PyVal) :=
  (original.map Prod.fst).foldl
    (fun out k =>
      match ss ("inp_" ++ k) with
      | some val => dinsert out k (coerceLike (dget out k (pstr "")) val)
      | none => out)
    original

/-- `collect_changes_into_dict` (lines 328–352): apply the staged `inp_*`
inputs to a copy of the loaded dict, then let the special
`hcp_educated_input` key overwrite `hcp_educated` when it casts to int
(a failed cast is swallowed by the `except: pass`). -/
def collect_changes_into_dict (ss : String → Option PyVal)
    (original : List (String × PyVal)) : List (String × PyVal) :=
  match ss "hcp_educated_input" with
  | some val =>
    match pyIntOfVal val with
    | some n => dinsert (apply_staged_inputs ss original) "hcp_educated" (pint n)
    | none => apply_staged_inputs ss original
  | none => apply_staged_inputs ss original

/-- Modelled from the spec: the set of dirty keys of a commit — the keys
whose merged value differs from the Snapshot value. The source exposes only
a boolean `st.session_state.modified` flag, not a per-key dirty set. -/
def dirtyKeys (merged original : List (String × PyVal)) : List String :=
  (original.map Prod.fst).filter (fun k => decide (dlookup merged k ≠ dlookup original k))

/-- The save-button handler of `main` (lines 399–407), with the backend
write outcome (`save_data_to_sheet` returns `True`/`False`) passed as the
`save_ok` argument. State is the pair (session-state inputs, `modified`
flag); the handler merges the staged edits, saves, and only on success
clears the `modified` flag (the staged `inp_*` entries are never touched
here). Returns the new state and the merged dict that was written. -/
def save_button_click (ss : String → Option PyVal) (modified : Bool)
    (data : List (String × PyVal)) (save_ok : Bool) :
    ((String → Option PyVal) × Bool) × List (String × PyVal) :=
  let new_data := collect_changes_into_dict ss data
  if save_ok then ((ss, false), new_data) else ((ss, modified), new_data)


/-! ## Metric Key Codec and legacy migration

The multi-site key codec and the legacy-table migration belong to the
repository's core as specified, but have no counterpart under `src/` (the
shipped dashboard is still single-site); they are modelled from the spec. -/

/-- Modelled from the spec: the reserved separator sequence of the Metric Key
Codec (§4.1, "the source used a double-underscore"). -/
def SEP : List Char := ['_', '_']

/-- Boolean test that `p` is an initial segment of the second list
(helper for the first-occurrence split). -/
def seqStartsWith : List Char → List Char → Bool
  | [], _ => true
  | _ :: _, [] => false
  | a :: p, b :: l => if a = b then seqStartsWith p l else false

/-- Split a list at the first occurrence of `sep`, returning the parts
before and after it; `none` when `sep` does not occur. -/
def splitFirst (sep : List Char) : List Char → Option (List Char × List Char)
  | [] => none
  | c :: rest =>
    if seqStartsWith sep (c :: rest) then some ([], (c :: rest).drop sep.length)
    else
      match splitFirst sep rest with
      | some (a, b) => some (c :: a, b)
      | none => none

/-- Modelled from the spec: `encode(site, metricName) -> flatKey` (§4.1) —
site name, separator, metric name concatenated. -/
def encode (site metric : List Char) : List Char := site ++ SEP ++ metric

/-- Modelled from the spec: `decode(flatKey) -> (site, metricName) | error`
(§4.1) — split on the first occurrence of the separator; `none` is the
`MalformedKeyError` case (no separator present). -/
def decode (k : List Char) : Option (List Char × List Char) := splitFirst SEP k

/-- Modelled from the spec: a legacy flat key is one lacking the
site-namespaced delimiter (§4.3). -/
def isLegacyKey (k : List Char) : Bool := (splitFirst SEP k).isNone

/-- Modelled from the spec: the "small threshold distinguishing one site's
worth of metrics from many sites flattened" (§4.3). The spec fixes no
number; any bound works for the idempotence property. -/
def LEGACY_THRESHOLD : ℕ := 40

/-- Modelled from the spec: the legacy-to-namespaced migration (§4.3) — a
table whose keys all lack the delimiter and whose size is below the
threshold is re-encoded under a single default site; any other table is
left alone. -/
def migrateLegacy (defaultSite : List Char) (table : List (List Char × String)) :
    List (List Char × String) :=
  if (table.all fun kv => isLegacyKey kv.1) ∧ table.length < LEGACY_THRESHOLD then
    table.map fun kv => (encode defaultSite kv.1, kv.2)
  else table

/-! ## Helper lemmas -/

lemma dlookup_dinsert (d : List (String × PyVal)) (k j : String) (v : PyVal) :
    dlookup (dinsert d k v) j = if k = j then some v else dlookup d j := by
  induction d with
  | nil => simp [dinsert, dlookup]
  | cons kv t ih =>
    rw [dinsert]
    by_cases hk : kv.1 = k
    · rw [if_pos hk, dlookup]
      by_cases hj : k = j
      · simp [hj]
      · simp only [if_neg hj]
        rw [dlookup, if_neg (fun he => hj (hk ▸ he))]
    · rw [if_neg hk, dlookup, dlookup]
      by_cases hj : kv.1 = j
      · have hkj : ¬ (k = j) := fun he => hk (hj.trans he.symm)
        simp [hj, hkj]
      · simp [hj, ih]

lemma dlookup_dupdate_isSome (upd : List (String × PyVal)) (k : String) :
    ∀ base, (dlookup base k).isSome = true →
      (dlookup (dupdate base upd) k).isSome = true := by
  induction upd with
  | nil => intro base h; exact h
  | cons kv t ih =>
    intro base h
    rw [dupdate, List.foldl_cons]
    have h2 : (dlookup (dinsert base kv.1 kv.2) k).isSome = true := by
      rw [dlookup_dinsert]
      by_cases hk : kv.1 = k
      · simp [hk]
      · simp [hk, h]
    exact ih (dinsert base kv.1 kv.2) h2

lemma abs_rhe_sub_le (y : ℚ) : |(rhe y : ℚ) - y| ≤ 1/2 := by
  have h1 : (⌊y⌋ : ℚ) ≤ y := Int.floor_le y
  have h2 : y < ⌊y⌋ + 1 := Int.lt_floor_add_one y
  rw [rhe]
  split_ifs with ha hb hc
  · rw [abs_le]
    constructor <;> linarith
  · rw [abs_le]
    push_cast
    constructor <;> linarith
  · rw [abs_le]
    constructor <;> linarith
  · rw [abs_le]
    push_cast
    constructor <;> linarith

lemma abs_roundTo_sub_le (p : ℕ) (x : ℚ) : |roundTo p x - x| ≤ 1 / (2 * 10 ^ p) := by
  have h := abs_rhe_sub_le (x * 10 ^ p)
  have hp : (0:ℚ) < 10 ^ p := by positivity
  rw [roundTo]
  have hx : (rhe (x * 10 ^ p) : ℚ) / 10 ^ p - x
      = ((rhe (x * 10 ^ p) : ℚ) - x * 10 ^ p) / 10 ^ p := by
    field_simp
    ring
  rw [hx, abs_div, abs_of_pos hp,
    show (1:ℚ) / (2 * 10 ^ p) = (1/2) / 10 ^ p by ring]
  gcongr

lemma abs_sum_map_roundTo_sub_le (p : ℕ) (g : ℚ → ℚ) :
    ∀ l : List ℚ,
      |(l.map fun v => roundTo p (g v)).sum - (l.map g).sum|
        ≤ l.length * (1 / (2 * 10 ^ p)) := by
  intro l
  induction l with
  | nil => simp
  | cons a t ih =>
    simp only [List.map_cons, List.sum_cons, List.length_cons]
    push_cast
    have h1 := abs_roundTo_sub_le p (g a)
    have h3 : roundTo p (g a) + (t.map fun v => roundTo p (g v)).sum
        - (g a + (t.map g).sum)
        = (roundTo p (g a) - g a)
          + ((t.map fun v => roundTo p (g v)).sum - (t.map g).sum) := by ring
    rw [h3]
    calc |(roundTo p (g a) - g a)
          + ((t.map fun v => roundTo p (g v)).sum - (t.map g).sum)|
        ≤ |roundTo p (g a) - g a|
          + |(t.map fun v => roundTo p (g v)).sum - (t.map g).sum| := abs_add _ _
      _ ≤ 1 / (2 * 10 ^ p) + t.length * (1 / (2 * 10 ^ p)) := by
          exact add_le_add h1 ih
      _ = ((t.length : ℚ) + 1) * (1 / (2 * 10 ^ p)) := by ring

lemma sum_map_div_mul (S : ℚ) : ∀ l : List ℚ,
    (l.map fun v => v / S * 100).sum = l.sum / S * 100 := by
  intro l
  induction l with
  | nil => simp
  | cons a t ih =>
    simp only [List.map_cons, List.sum_cons, ih]
    ring

lemma seqStartsWith_self_append (p y : List Char) : seqStartsWith p (p ++ y) = true := by
  induction p with
  | nil => rfl
  | cons a p ih => simp [seqStartsWith, ih]

lemma seqStartsWith_append_left (p x y : List Char) (h : p.length ≤ x.length) :
    seqStartsWith p (x ++ y) = seqStartsWith p x := by
  induction p generalizing x with
  | nil => rfl
  | cons a p ih =>
    cases x with
    | nil => simp at h
    | cons b x =>
      simp only [List.cons_append, seqStartsWith]
      by_cases hab : a = b
      · simp only [if_pos hab]
        exact ih x (by simpa using h)
      · simp [if_neg hab]

lemma splitFirst_append_right (sep m : List Char) :
    ∀ site, splitFirst sep (site ++ sep) = some (site, []) →
      splitFirst sep (site ++ sep ++ m) = some (site, m) := by
  intro site
  induction site with
  | nil =>
    simp only [List.nil_append]
    intro h
    cases sep with
    | nil => simp [splitFirst] at h
    | cons c s =>
      have hpre : seqStartsWith (c :: s) (c :: (s ++ m)) = true := by
        have h2 := seqStartsWith_self_append (c :: s) m
        simpa using h2
      simp [splitFirst, hpre, List.drop_left]
  | cons c cs ih =>
    intro h
    simp only [List.cons_append] at h ⊢
    by_cases hpre : seqStartsWith sep (c :: (cs ++ sep)) = true
    · rw [splitFirst, if_pos hpre] at h
      simp at h
    · have hpre2 : seqStartsWith sep (c :: (cs ++ (sep ++ m))) = false := by
        have hlen : sep.length ≤ (c :: (cs ++ sep)).length := by
          simp [List.length_append]
          omega
        have h3 := seqStartsWith_append_left sep (c :: (cs ++ sep)) m hlen
        rw [List.cons_append, List.append_assoc] at h3
        rw [h3]
        simpa using hpre
      rw [splitFirst, if_neg hpre] at h
      cases hs : splitFirst sep (cs ++ sep) with
      | none => rw [hs] at h; simp at h
      | some ab =>
        rw [hs] at h
        simp only [Option.some.injEq] at h
        have hab : ab = (cs, []) := by
          cases ab with
          | mk a b =>
            simp at h
            exact Prod.ext (by simpa using h.1.symm ▸ rfl) (by simp [h.2])
        subst hab
        have ih2 := ih hs
        rw [splitFirst, if_neg (by simp [hpre2]), ih2]

lemma splitFirst_isSome_append (sep m : List Char) (hsep : sep ≠ []) :
    ∀ site, (splitFirst sep (site ++ sep ++ m)).isSome = true := by
  intro site
  induction site with
  | nil =>
    cases sep with
    | nil => exact absurd rfl hsep
    | cons c s =>
      have hpre : seqStartsWith (c :: s) (c :: (s ++ m)) = true := by
        have h2 := seqStartsWith_self_append (c :: s) m
        simpa using h2
      simp [splitFirst, hpre]
  | cons c cs ih =>
    simp only [List.cons_append]
    rw [splitFirst]
    by_cases hpre : seqStartsWith sep (c :: (cs ++ sep ++ m)) = true
    · rw [if_pos hpre]
      rfl
    · rw [if_neg hpre]
      cases hs : splitFirst sep (cs ++ sep ++ m) with
      | none =>
        exfalso
        rw [hs] at ih
        simp at ih
      | some ab => rfl

lemma apply_staged_inputs_no_inputs (ss : String → Option PyVal)
    (h1 : ∀ k : String, ss ("inp_" ++ k) = none) :
    ∀ (ks : List String) (out : List (String × PyVal)),
      ks.foldl (fun out k =>
        match ss ("inp_" ++ k) with
        | some val => dinsert out k (coerceLike (dget out k (pstr "")) val)
        | none => out) out = out := by
  intro ks
  induction ks with
  | nil => intro out; rfl
  | cons k ks ih =>
    intro out
    rw [List.foldl_cons]
    simp only [h1 k]
    exact ih out

/-! ## Claim theorems -/

/-- C3: every failure of the backend load (medium unreachable, unreadable,
auth failure — any raised exception, modelled by the `.error` fetch outcome)
makes `load_data_from_sheet` return the built-in `DEFAULT_DATA` table; the
function is total, so no exception propagates to the caller. -/
theorem load_data_from_sheet_error_returns_defaults (e : String) :
    load_data_from_sheet (Except.error e) = DEFAULT_DATA := rfl

/-- C4: when the save fails (`save_data_to_sheet` returns `False`), the
save-button handler leaves the session state — the staged `inp_*` edits and
the `modified` flag — completely unchanged, and the merged dict it attempted
to write is `collect_changes_into_dict` of that unchanged state, so a retry
re-attempts the save with the same merged data. -/
theorem save_button_click_failure_preserves_state (ss : String → Option PyVal)
    (modified : Bool) (data : List (String × PyVal)) :
    save_button_click ss modified data false
      = ((ss, modified), collect_changes_into_dict ss data) := rfl

/-- C5: a metric group whose raw values already sum exactly to the target
passes through normalization unchanged, and consequently normalizing the
result of such a normalization again returns the same values (idempotence
on already-normalized groups). -/
theorem normalizeGroup_exact_target_pass_through (p : ℕ) (vals : List ℚ)
    (h : vals.sum = 100) :
    normalizeGroup p vals = vals ∧
    normalizeGroup p (normalizeGroup p vals) = normalizeGroup p vals := by
  have h1 : normalizeGroup p vals = vals := by
    rw [normalizeGroup, if_neg]
    intro hc
    exact hc.1 h
  exact ⟨h1, by rw [h1, h1]⟩

/-- C5 witness: the demographics group `[25, 25, 25, 25]` sums to 100 and is
left untouched by normalization, twice over. -/
theorem normalizeGroup_exact_target_pass_through_witness :
    normalizeGroup 1 [(25:ℚ), 25, 25, 25] = [(25:ℚ), 25, 25, 25] ∧
    normalizeGroup 1 (normalizeGroup 1 [(25:ℚ), 25, 25, 25])
      = normalizeGroup 1 [(25:ℚ), 25, 25, 25] :=
  normalizeGroup_exact_target_pass_through 1 [(25:ℚ), 25, 25, 25] (by norm_num)

/-- C6: a metric group whose raw values sum to zero (in particular an
all-zero group) passes through normalization unchanged — the guard
`total > 0` fails, so the division branch is never taken and no
division-by-zero can occur. -/
theorem normalizeGroup_zero_sum_pass_through (p : ℕ) (vals : List ℚ)
    (h : vals.sum = 0) : normalizeGroup p vals = vals := by
  rw [normalizeGroup, if_neg]
  intro hc
  rw [h] at hc
  exact lt_irrefl 0 hc.2

/-- C6 witness: the all-zero group normalizes to itself. -/
theorem normalizeGroup_zero_sum_pass_through_witness :
    normalizeGroup 2 [(0:ℚ), 0, 0, 0, 0, 0] = [(0:ℚ), 0, 0, 0, 0, 0] :=
  normalizeGroup_zero_sum_pass_through 2 [(0:ℚ), 0, 0, 0, 0, 0] (by norm_num)

/-- C7: reading a metric name absent from the loaded dict through the
renderers' read patterns `int(float(data.get(key, 0)))` and
`float(data.get(key, 0))` yields the numeric zero, never an error: the
dict `get` supplies the default `0` and both conversions succeed on it.
(The shipped dashboard is single-site, so the site is the implicit one;
the read never depends on it.) -/
theorem metric_get_absent_returns_zero (d : List (String × PyVal)) (k : String)
    (h : dlookup d k = none) :
    metricInt d k = some 0 ∧ metricFloat d k = some 0 := by
  have hg : dget d k (pint 0) = pint 0 := by rw [dget, h]
  constructor
  · rw [metricInt, hg]
    simp [pyFloatOfVal, truncToInt]
  · rw [metricFloat, hg]
    simp [pyFloatOfVal]

/-- C7 witness: an unknown metric name read from an empty dict renders as
zero in both the int and the float pattern. -/
theorem metric_get_absent_returns_zero_witness :
    metricInt [] "metric_missing" = some 0 ∧
    metricFloat [] "metric_missing" = some 0 :=
  metric_get_absent_returns_zero [] "metric_missing" rfl

/-- C1 counterexample: for the demographics group `[1, 1, 1, 13]` (raw sum
16) the code produces `[6.2, 6.2, 6.2, 81.2]` — the three `6.25%` shares and
the `81.25%` share all round down to even — so the normalized sum is `99.8`,
which differs from the target 100 by `0.2`, more than the claimed one
least-significant unit `0.1`. -/
theorem normalizeGroup_one_ulp_bound_fails :
    (normalizeGroup 1 [(1:ℚ), 1, 1, 13]).sum = 499/5 ∧
    ¬ |(normalizeGroup 1 [(1:ℚ), 1, 1, 13]).sum - 100| ≤ 1/10 := by
  have he : (normalizeGroup 1 [(1:ℚ), 1, 1, 13]).sum = 499/5 := by
    rw [normalizeGroup, if_pos (by norm_num)]
    norm_num [roundTo, rhe]
    simp only [Int.fract]
    norm_num
  refine ⟨he, ?_⟩
  rw [he, show (499:ℚ)/5 - 100 = -(1/5) by norm_num, abs_neg,
    abs_of_pos (by norm_num : (0:ℚ) < 1/5)]
  norm_num

/-- C1 (amended): for every metric group whose raw values have a positive
sum different from the target, normalization replaces each value with
`round(raw[i] / rawSum * 100, p)` (`p = 1` for percentage groups, `p = 2`
for the LDL-c group), and the sum of the normalized values differs from the
target by at most half a least-significant unit per group entry
(`n / (2·10^p)` for a group of `n` values) — not by at most one unit
overall, which the group `[1, 1, 1, 13]` refutes. -/
theorem normalizeGroup_proportional (p : ℕ) (vals : List ℚ)
    (hpos : 0 < vals.sum) (hne : vals.sum ≠ 100) :
    normalizeGroup p vals = vals.map (fun v => roundTo p (v / vals.sum * 100)) ∧
    |(normalizeGroup p vals).sum - 100| ≤ vals.length * (1 / (2 * 10 ^ p)) := by
  have heq : normalizeGroup p vals
      = vals.map (fun v => roundTo p (v / vals.sum * 100)) := by
    rw [normalizeGroup, if_pos ⟨hne, hpos⟩]
  refine ⟨heq, ?_⟩
  have hsum : (vals.map fun v => v / vals.sum * 100).sum = 100 := by
    rw [sum_map_div_mul, div_self (ne_of_gt hpos), one_mul]
  have hb := abs_sum_map_roundTo_sub_le p (fun v => v / vals.sum * 100) vals
  rw [hsum] at hb
  rw [heq]
  exact hb

/-- C1 witness: the amended bound applied to the demographics group
`[1, 1, 1, 13]` — four entries, so the normalized sum is within
`4 × 0.05 = 0.2` of 100 (and it attains exactly that). -/
theorem normalizeGroup_proportional_witness :
    normalizeGroup 1 [(1:ℚ), 1, 1, 13]
      = ([(1:ℚ), 1, 1, 13]).map
          (fun v => roundTo 1 (v / ([(1:ℚ), 1, 1, 13]).sum * 100)) ∧
    |(normalizeGroup 1 [(1:ℚ), 1, 1, 13]).sum - 100|
      ≤ ([(1:ℚ), 1, 1, 13]).length * (1 / (2 * 10 ^ 1)) :=
  normalizeGroup_proportional 1 [(1:ℚ), 1, 1, 13] (by norm_num) (by norm_num)

/-- C2: with zero Pending Edits — no staged `inp_*` entry and no
`hcp_educated_input` in session state — the merged dict built for saving is
the loaded snapshot itself (every key with its snapshot value, none added or
removed), and the set of dirty keys is empty, so the save rewrites the same
data. -/
theorem collect_changes_into_dict_no_edits (ss : String → Option PyVal)
    (original : List (String × PyVal))
    (h1 : ∀ k : String, ss ("inp_" ++ k) = none)
    (h2 : ss "hcp_educated_input" = none) :
    collect_changes_into_dict ss original = original ∧
    dirtyKeys (collect_changes_into_dict ss original) original = [] := by
  have hmain : collect_changes_into_dict ss original = original := by
    rw [collect_changes_into_dict]
    simp only [h2]
    rw [apply_staged_inputs]
    exact apply_staged_inputs_no_inputs ss h1 (original.map Prod.fst) original
  refine ⟨hmain, ?_⟩
  rw [dirtyKeys, hmain]
  simp

/-- C2 witness: an empty session state commits `DEFAULT_DATA` back
unchanged with no dirty keys. -/
theorem collect_changes_into_dict_no_edits_witness :
    collect_changes_into_dict (fun _ => none) DEFAULT_DATA = DEFAULT_DATA ∧
    dirtyKeys (collect_changes_into_dict (fun _ => none) DEFAULT_DATA)
      DEFAULT_DATA = [] :=
  collect_changes_into_dict_no_edits (fun _ => none) DEFAULT_DATA
    (fun _ => rfl) rfl

/-- C8: for every site and metric name whose encoding is unambiguous — the
first occurrence of the separator in `site ++ SEP` is the appended separator
itself, i.e. the site name neither contains the separator nor ends with half
of it — decoding the encoded flat key returns the original pair. -/
theorem decode_encode_roundtrip (site metric : List Char)
    (h : decode (site ++ SEP) = some (site, [])) :
    decode (encode site metric) = some (site, metric) :=
  splitFirst_append_right SEP metric site h

/-- C8 witness: the pair `("GX", "hcp_educated")` — a metric name with
internal single underscores — round-trips through the codec. -/
theorem decode_encode_roundtrip_witness :
    decode (['G', 'X'] ++ SEP) = some (['G', 'X'], []) ∧
    decode (encode ['G', 'X'] ['h', 'c', 'p', '_', 'e', 'd'])
      = some (['G', 'X'], ['h', 'c', 'p', '_', 'e', 'd']) :=
  ⟨by decide,
    decode_encode_roundtrip ['G', 'X'] ['h', 'c', 'p', '_', 'e', 'd'] (by decide)⟩

/-- C9: the legacy-to-namespaced migration is idempotent — applying it twice
to any flat table gives the same result as applying it once (a migrated
nonempty table has namespaced keys, so the legacy condition fails on it; an
untouched table is untouched again). -/
theorem migrateLegacy_idempotent (site : List Char) (table : List (List Char × String)) :
    migrateLegacy site (migrateLegacy site table) = migrateLegacy site table := by
  by_cases hc : (table.all fun kv => isLegacyKey kv.1) ∧ table.length < LEGACY_THRESHOLD
  · cases table with
    | nil => simp [migrateLegacy]
    | cons kv t =>
      have hinner : migrateLegacy site (kv :: t)
          = (kv :: t).map fun kv2 => (encode site kv2.1, kv2.2) := by
        rw [migrateLegacy, if_pos hc]
      rw [hinner, migrateLegacy, if_neg ?ne]
      case ne =>
        intro hc2
        have h1 := hc2.1
        simp only [List.map_cons, List.all_cons, Bool.and_eq_true] at h1
        have h4 := h1.1
        simp only [isLegacyKey, encode] at h4
        have h2 := splitFirst_isSome_append SEP kv.1 (by decide) site
        cases hx : splitFirst SEP (site ++ SEP ++ kv.1) with
        | none => rw [hx] at h2; simp at h2
        | some ab => rw [hx] at h4; simp at h4
  · have hinner2 : migrateLegacy site table = table := by
      rw [migrateLegacy, if_neg hc]
    rw [hinner2, hinner2]

/-- C10: whatever the backend returns — a load failure, a short table, or
any parsed rows — the loaded mapping has an entry for every key of
`DEFAULT_DATA`: the defaults are the base dict and backend rows only
override or extend it, so no known metric key is ever absent from a loaded
snapshot. -/
theorem load_data_covers_default_keys (fetch : Except String (List (List String)))
    (k : String) (h : (dlookup DEFAULT_DATA k).isSome = true) :
    (dlookup (load_data_from_sheet fetch) k).isSome = true := by
  cases fetch with
  | error e => exact h
  | ok rows =>
    rw [load_data_from_sheet]
    by_cases hlen : rows.length < 2
    · rw [if_pos hlen]
      exact h
    · rw [if_neg hlen]
      exact dlookup_dupdate_isSome (parseRows (rows.drop 1)) k DEFAULT_DATA h

/-- C10 witness: `demo_black` is a default key and survives a failed load. -/
theorem load_data_covers_default_keys_witness :
    (dlookup DEFAULT_DATA "demo_black").isSome = true ∧
    (dlookup (load_data_from_sheet (Except.error "sheet unreachable"))
        "demo_black").isSome = true :=
  ⟨by decide,
    load_data_covers_default_keys (Except.error "sheet unreachable") "demo_black"
      (by decide)⟩
